import Mathlib

/-!
# Verification of the RPG-Library core (`rpg_core.py`)

A shallow embedding of the data model and operations of `rpg_core.py`:
characters (players, enemies) with stats, equipment, abilities and status
effects, plus the shop economy.  Python `int`s are modelled as `Int`;
Python lists as `List`; Python dicts as ordered association lists
(insertion order preserved, matching CPython semantics); `None`-able
arguments as `Option`; methods that mutate `self` return the updated
record together with the Python return value.  Calls to `random.randint`
and `random.choice` are modelled by passing the drawn value (resp. a
selection index) as an explicit argument.
-/

set_option autoImplicit false

namespace RPG

/-- `class ItemType(Enum)` from `rpg_core.py`. -/
inductive ItemType where
  | WEAPON | ARMOR | CONSUMABLE | MISC
deriving DecidableEq

/-- The `.value` string of each `ItemType` member. -/
def ItemType.value : ItemType → String
  | .WEAPON => "weapon"
  | .ARMOR => "armor"
  | .CONSUMABLE => "consumable"
  | .MISC => "misc"

/-- `class AbilityType(Enum)` from `rpg_core.py`. -/
inductive AbilityType where
  | ATTACK | HEAL | BUFF | DEBUFF
deriving DecidableEq

/-- `class StatusEffectType(Enum)` from `rpg_core.py`. -/
inductive StatusEffectType where
  | POISON | BURN | FREEZE | STUN | STRENGTH_BOOST | DEFENSE_BOOST
  | SPEED_BOOST | WEAKNESS | VULNERABILITY | REGENERATION
deriving DecidableEq

/-- `class StatusEffect` — fields set in `StatusEffect.__init__`. -/
structure StatusEffect where
  name : String
  effect_type : StatusEffectType
  duration : Int
  power : Int
  description : String
  remaining_duration : Int
deriving DecidableEq

/-- `StatusEffect(name, effect_type, duration, power, description)`:
the constructor sets `remaining_duration = duration`. -/
def StatusEffect.make (name : String) (effect_type : StatusEffectType)
    (duration : Int) (power : Int) (description : String) : StatusEffect :=
  ⟨name, effect_type, duration, power, description, duration⟩

/-- `StatusEffect.is_expired`: `remaining_duration <= 0`. -/
def StatusEffect.is_expired (e : StatusEffect) : Bool :=
  e.remaining_duration ≤ 0

/-- `StatusEffect.prevents_action`: `effect_type in [FREEZE, STUN]`. -/
def StatusEffect.prevents_action (e : StatusEffect) : Bool :=
  e.effect_type = StatusEffectType.FREEZE ∨ e.effect_type = StatusEffectType.STUN

/-- `StatusEffect.get_stat_modifier(stat)`. -/
def StatusEffect.get_stat_modifier (e : StatusEffect) (stat : String) : Int :=
  if e.effect_type = StatusEffectType.STRENGTH_BOOST ∧ stat = "attack" then e.power
  else if e.effect_type = StatusEffectType.WEAKNESS ∧ stat = "attack" then -e.power
  else if e.effect_type = StatusEffectType.DEFENSE_BOOST ∧ stat = "defense" then e.power
  else if e.effect_type = StatusEffectType.VULNERABILITY ∧ stat = "defense" then -e.power
  else 0

/-- `class Item` — fields set in `Item.__init__`.  The `stats` dict
(`{"attack": 10, "defense": 5}`-style) is an ordered association list;
as a Python dict it has pairwise-distinct keys. -/
structure Item where
  name : String
  item_type : ItemType
  value : Int
  description : String
  stats : List (String × Int)
deriving DecidableEq

/-- `item.stats.get(stat, 0)` — first binding of the key, default 0. -/
def Item.stat_get (item : Item) (stat : String) : Int :=
  match item.stats.find? (fun p => p.1 = stat) with
  | some p => p.2
  | none => 0

/-- `class Ability` — fields set in `Ability.__init__`
(`current_cooldown` starts at 0, see `Ability.make`). -/
structure Ability where
  name : String
  ability_type : AbilityType
  power : Int
  mana_cost : Int
  description : String
  cooldown : Int
  current_cooldown : Int
  status_effect : Option StatusEffect
deriving DecidableEq

/-- `Ability.__init__`: `current_cooldown = 0`. -/
def Ability.make (name : String) (ability_type : AbilityType) (power : Int)
    (mana_cost : Int) (description : String) (cooldown : Int)
    (status_effect : Option StatusEffect) : Ability :=
  ⟨name, ability_type, power, mana_cost, description, cooldown, 0, status_effect⟩

/-- `class Character` — fields set in `Character.__init__` (the `equipped`
dict `slot -> Item` is an ordered association list). -/
structure Character where
  name : String
  max_hp : Int
  hp : Int
  max_mana : Int
  mana : Int
  attack : Int
  defense : Int
  abilities : List Ability
  inventory : List Item
  equipped : List (String × Item)
  status_effects : List StatusEffect
deriving DecidableEq

/-- `Character(name, hp, mana, attack, defense)`: `max_hp = hp = hp0`,
`max_mana = mana = mana0`, all containers empty. -/
def Character.make (name : String) (hp : Int) (mana : Int)
    (attack : Int) (defense : Int) : Character :=
  ⟨name, hp, hp, mana, mana, attack, defense, [], [], [], []⟩

/-- `slot in self.equipped` for the `equipped` dict. -/
def dictContains (d : List (String × Item)) (k : String) : Bool :=
  d.any (fun p => p.1 = k)

/-- `self.equipped[slot]` (read). -/
def dictGet (d : List (String × Item)) (k : String) : Option Item :=
  match d.find? (fun p => p.1 = k) with
  | some p => some p.2
  | none => none

/-- `self.equipped[slot] = item`: update in place if the key exists,
otherwise append (CPython dict insertion-order semantics). -/
def dictSet (d : List (String × Item)) (k : String) (v : Item) :
    List (String × Item) :=
  match d with
  | [] => [(k, v)]
  | p :: rest => if p.1 = k then (k, v) :: rest else p :: dictSet rest k v

/-- `del self.equipped[slot]`: remove the (unique, first) binding of `k`. -/
def dictDel (d : List (String × Item)) (k : String) : List (String × Item) :=
  match d with
  | [] => []
  | p :: rest => if p.1 = k then rest else p :: dictDel rest k

/-- `self.inventory.remove(item)`: remove the first occurrence. -/
def removeFirstItem : List Item → Item → List Item
  | [], _ => []
  | x :: rest, item => if x = item then rest else x :: removeFirstItem rest item

/-- `Character.add_item(item)`: append to inventory. -/
def Character.add_item (c : Character) (item : Item) : Character :=
  { c with inventory := c.inventory ++ [item] }

/-- `Character.add_ability(ability)`. -/
def Character.add_ability (c : Character) (ability : Ability) : Character :=
  { c with abilities := c.abilities ++ [ability] }

/-- `Character.get_total_attack`: base attack + equipment `"attack"` stats
+ status-effect attack modifiers, floored at 0. -/
def Character.get_total_attack (c : Character) : Int :=
  max 0 (c.attack
    + (c.equipped.map (fun p => p.2.stat_get "attack")).sum
    + (c.status_effects.map (fun e => e.get_stat_modifier "attack")).sum)

/-- `Character.get_total_defense`: base defense + equipment `"defense"`
stats + status-effect defense modifiers, floored at 0. -/
def Character.get_total_defense (c : Character) : Int :=
  max 0 (c.defense
    + (c.equipped.map (fun p => p.2.stat_get "defense")).sum
    + (c.status_effects.map (fun e => e.get_stat_modifier "defense")).sum)

/-- `Character.take_damage(damage)`: `actual_damage = max(1, damage -
get_total_defense())`, `hp = max(0, hp - actual_damage)`; returns
`actual_damage` together with the updated character. -/
def Character.take_damage (c : Character) (damage : Int) : Int × Character :=
  let actual_damage := max 1 (damage - c.get_total_defense)
  (actual_damage, { c with hp := max 0 (c.hp - actual_damage) })

/-- `Character.heal(amount)`: `hp = min(max_hp, hp + amount)`. -/
def Character.heal (c : Character) (amount : Int) : Character :=
  { c with hp := min c.max_hp (c.hp + amount) }

/-- `Character.restore_mana(amount)`: `mana = min(max_mana, mana + amount)`. -/
def Character.restore_mana (c : Character) (amount : Int) : Character :=
  { c with mana := min c.max_mana (c.mana + amount) }

/-- `Character.is_alive`: `hp > 0`. -/
def Character.is_alive (c : Character) : Bool :=
  c.hp > 0

/-- `Character.has_status_effect(effect_type)`. -/
def Character.has_status_effect (c : Character) (t : StatusEffectType) : Bool :=
  c.status_effects.any (fun e => e.effect_type = t)

/-- `Character.is_action_prevented`. -/
def Character.is_action_prevented (c : Character) : Bool :=
  c.status_effects.any (fun e => e.prevents_action)

/-- The loop in `Character.add_status_effect`: remove the first existing
effect with the given type (if any), leaving the rest untouched. -/
def removeFirstOfType : List StatusEffect → StatusEffectType → List StatusEffect
  | [], _ => []
  | e :: rest, t =>
      if e.effect_type = t then rest else e :: removeFirstOfType rest t

/-- `Character.add_status_effect(status_effect)`: drop the first active
effect of the same type (refreshing the duration), then append. -/
def Character.add_status_effect (c : Character) (status_effect : StatusEffect) :
    Character :=
  { c with status_effects :=
      removeFirstOfType c.status_effects status_effect.effect_type
        ++ [status_effect] }

/-- One pass of `setattr(self, stat, getattr(self, stat) + value)` guarded
by `hasattr(self, stat)`, for the integer attributes of `Character`.
(Keys naming non-integer attributes such as `"name"` would raise a
`TypeError` in Python; such runs are crashes and are not modelled:
the key is treated as a no-op here.) -/
def Character.add_to_stat (c : Character) (stat : String) (value : Int) :
    Character :=
  if stat = "max_hp" then { c with max_hp := c.max_hp + value }
  else if stat = "hp" then { c with hp := c.hp + value }
  else if stat = "max_mana" then { c with max_mana := c.max_mana + value }
  else if stat = "mana" then { c with mana := c.mana + value }
  else if stat = "attack" then { c with attack := c.attack + value }
  else if stat = "defense" then { c with defense := c.defense + value }
  else c

/-- The `for stat, value in item.stats.items()` loop of
`Character.equip_item` (add the item's stat deltas). -/
def Character.apply_item_stats (c : Character) (item : Item) : Character :=
  item.stats.foldl (fun acc p => acc.add_to_stat p.1 p.2) c

/-- The `for stat, value in item.stats.items()` loop of
`Character.unequip_item` (subtract the item's stat deltas). -/
def Character.remove_item_stats (c : Character) (item : Item) : Character :=
  item.stats.foldl (fun acc p => acc.add_to_stat p.1 (-p.2)) c

/-- `Character.unequip_item(slot)`: no-op if the slot is empty; otherwise
delete the binding, return the item to the inventory, and subtract its
stat deltas from the base stats. -/
def Character.unequip_item (c : Character) (slot : String) : Character :=
  match dictGet c.equipped slot with
  | none => c
  | some item =>
      let c' := { c with equipped := dictDel c.equipped slot,
                         inventory := c.inventory ++ [item] }
      c'.remove_item_stats item

/-- `slot = item.item_type.value if slot is None else slot` in
`Character.equip_item`. -/
def resolve_slot (item : Item) (slot? : Option String) : String :=
  match slot? with
  | none => item.item_type.value
  | some s => s

/-- `Character.equip_item(item, slot=None)`: no-op if the item is not in
the inventory; otherwise unequip the current occupant of the slot (if
any), move the item from inventory to `equipped`, and add its stat
deltas to the base stats. -/
def Character.equip_item (c : Character) (item : Item) (slot? : Option String) :
    Character :=
  if c.inventory.contains item then
    let slot := resolve_slot item slot?
    let c1 := if dictContains c.equipped slot then c.unequip_item slot else c
    let c2 := { c1 with equipped := dictSet c1.equipped slot item,
                        inventory := removeFirstItem c1.inventory item }
    c2.apply_item_stats item
  else c

/-- `StatusEffect.apply_effect(character)`: no-op returning `""` when
already expired; otherwise perform the per-type action on the character,
build the message, and decrement `remaining_duration`.  Returns the
updated effect, the updated character and the message.  (The Python code
mutates `self` and `character` in place; the message for the stat-boost
types is produced without a numeric action, and `SPEED_BOOST` matches no
branch, leaving the message `""`.) -/
def StatusEffect.apply_effect (e : StatusEffect) (c : Character) :
    StatusEffect × Character × String :=
  if e.remaining_duration ≤ 0 then (e, c, "")
  else
    let ticked := { e with remaining_duration := e.remaining_duration - 1 }
    match e.effect_type with
    | .POISON =>
        let damage := e.power
        let (_, c') := c.take_damage damage
        (ticked, c', c.name ++ " takes " ++ toString damage ++ " poison damage!")
    | .BURN =>
        let damage := e.power
        let (_, c') := c.take_damage damage
        (ticked, c', c.name ++ " takes " ++ toString damage ++ " burn damage!")
    | .REGENERATION =>
        let heal_amount := e.power
        let c' := c.heal heal_amount
        (ticked, c', c.name ++ " regenerates " ++ toString heal_amount ++ " HP!")
    | .FREEZE =>
        (ticked, c, c.name ++ " is frozen and cannot act!")
    | .STUN =>
        (ticked, c, c.name ++ " is stunned and cannot act!")
    | .STRENGTH_BOOST =>
        (ticked, c, c.name ++ " is affected by " ++ e.name ++ "!")
    | .WEAKNESS =>
        (ticked, c, c.name ++ " is affected by " ++ e.name ++ "!")
    | .DEFENSE_BOOST =>
        (ticked, c, c.name ++ " is affected by " ++ e.name ++ "!")
    | .VULNERABILITY =>
        (ticked, c, c.name ++ " is affected by " ++ e.name ++ "!")
    | .SPEED_BOOST =>
        (ticked, c, "")

/-- The `for effect in self.status_effects` loop of
`Character.process_status_effects`.  `done` holds the already-processed
effects (in-place-mutated in Python), `todo` the ones still to visit;
the character's live `status_effects` list — read by
`get_total_defense` inside `take_damage` — is `done ++ todo` at each
step.  Returns the character after all numeric actions, the fully
processed effect list, and the collected non-empty messages. -/
def processGo (c : Character) (done todo : List StatusEffect) :
    Character × List StatusEffect × List String :=
  match todo with
  | [] => (c, done, [])
  | e :: rest =>
      let (e', c', msg) :=
        e.apply_effect { c with status_effects := done ++ e :: rest }
      let (c'', done', msgs) := processGo c' (done ++ [e']) rest
      (c'', done', (if msg = "" then [] else [msg]) ++ msgs)

/-- The worn-off message of `Character.process_status_effects`. -/
def wornOffMessage (n : String) (e : StatusEffect) : String :=
  n ++ "\x27s " ++ e.name ++ " has worn off."

/-- `Character.process_status_effects()`: apply every active effect in
stored order (no early exit), then remove the now-expired effects,
appending a worn-off message for each in removal order. -/
def Character.process_status_effects (c : Character) :
    Character × List String :=
  let (c1, effects, messages) := processGo c [] c.status_effects
  let expired_effects := effects.filter (fun e => e.is_expired)
  let kept := effects.filter (fun e => ¬ e.is_expired)
  ({ c1 with status_effects := kept },
   messages ++ expired_effects.map (fun e => wornOffMessage c.name e))

/-- `Ability.can_use(caster)`. -/
def Ability.can_use (ab : Ability) (caster : Character) : Bool :=
  ab.current_cooldown = 0 ∧ caster.mana ≥ ab.mana_cost
    ∧ ¬ caster.is_action_prevented

/-- The fresh `StatusEffect(...)` copy built inside `Ability.use` from the
ability's status-effect template. -/
def freshCopy (se : StatusEffect) : StatusEffect :=
  StatusEffect.make se.name se.effect_type se.duration se.power se.description

/-- `Ability.use(caster, target=None)`.  `r` is the value drawn by the
single `random.randint` call of the executed branch (`randint(-5, 5)`
for Attack, `randint(-2, 2)` for Heal; unused otherwise).  Returns the
updated ability, caster and target together with the joined message
(`" ".join(result_messages)`). -/
def Ability.use (ab : Ability) (caster : Character)
    (target : Option Character) (r : Int) :
    Ability × Character × Option Character × String :=
  if ab.can_use caster = false then
    if caster.is_action_prevented then
      (ab, caster, target, caster.name ++ " is unable to act!")
    else
      (ab, caster, target, caster.name ++ " cannot use " ++ ab.name ++ "!")
  else
    let caster1 := { caster with mana := caster.mana - ab.mana_cost }
    let ab1 := { ab with current_cooldown := ab.cooldown }
    match ab.ability_type with
    | .ATTACK =>
        match target with
        | some t =>
            let damage := caster1.get_total_attack + ab.power + r
            let (actual_damage, t1) := t.take_damage damage
            let msg1 := caster1.name ++ " attacks " ++ t1.name ++ " with "
              ++ ab.name ++ " for " ++ toString actual_damage ++ " damage!"
            match ab.status_effect with
            | some se =>
                if t1.is_alive then
                  let new_effect := freshCopy se
                  let t2 := t1.add_status_effect new_effect
                  (ab1, caster1, some t2,
                   msg1 ++ " " ++ t2.name ++ " is affected by "
                     ++ new_effect.name ++ "!")
                else (ab1, caster1, some t1, msg1)
            | none => (ab1, caster1, some t1, msg1)
        | none => (ab1, caster1, none, "")
    | .HEAL =>
        let heal_amount := ab.power + r
        let caster2 := caster1.heal heal_amount
        let msg1 := caster2.name ++ " heals for " ++ toString heal_amount
          ++ " HP!"
        match ab.status_effect with
        | some se =>
            let new_effect := freshCopy se
            let caster3 := caster2.add_status_effect new_effect
            (ab1, caster3, target,
             msg1 ++ " " ++ caster3.name ++ " gains " ++ new_effect.name ++ "!")
        | none => (ab1, caster2, target, msg1)
    | .BUFF =>
        match ab.status_effect with
        | some se =>
            let new_effect := freshCopy se
            match target with
            | some t =>
                let t1 := t.add_status_effect new_effect
                (ab1, caster1, some t1,
                 t1.name ++ " gains " ++ new_effect.name ++ "!")
            | none =>
                let caster2 := caster1.add_status_effect new_effect
                (ab1, caster2, none,
                 caster2.name ++ " gains " ++ new_effect.name ++ "!")
        | none =>
            (ab1, caster1, target, caster1.name ++ " uses " ++ ab.name ++ "!")
    | .DEBUFF =>
        match target, ab.status_effect with
        | some t, some se =>
            let new_effect := freshCopy se
            let t1 := t.add_status_effect new_effect
            (ab1, caster1, some t1,
             t1.name ++ " is afflicted with " ++ new_effect.name ++ "!")
        | _, _ =>
            (ab1, caster1, target, caster1.name ++ " uses " ++ ab.name ++ "!")

/-- `class Player(Character)` — extra fields set in `Player.__init__`. -/
structure Player extends Character where
  level : Int
  experience : Int
  experience_to_next_level : Int
  gold : Int
  stat_points : Int
deriving DecidableEq

/-- `Player(name, hp, mana, attack, defense)`: `level = 1`,
`experience = 0`, `experience_to_next_level = 100`, `gold = 0`,
`stat_points = 0`. -/
def Player.make (name : String) (hp : Int) (mana : Int)
    (attack : Int) (defense : Int) : Player :=
  { Character.make name hp mana attack defense with
    level := 1, experience := 0, experience_to_next_level := 100,
    gold := 0, stat_points := 0 }

/-- The per-level-up stat increases drawn in `Player.level_up`
(`randint(8, 12)`, `randint(3, 7)`, `randint(1, 3)`, `randint(1, 2)`). -/
structure LevelInc where
  hp_increase : Int
  mana_increase : Int
  attack_increase : Int
  defense_increase : Int
deriving DecidableEq

/-- `int(self.experience_to_next_level * 1.2)`: exact-rational truncation
toward zero of `x * 6/5`.  (For the thresholds reachable from the
initial value 100 — in particular 100 → 120 → 144 — the IEEE-double
products `100 * 1.2` and `120 * 1.2` round to exactly `120.0` and
`144.0`, so the float computation in the source agrees with this
exact model.) -/
def truncTimes1p2 (x : Int) : Int :=
  (x * 6).tdiv 5

/-- `Player.level_up(inc)`: consume the current threshold, bump the level,
update the threshold, apply the drawn stat increases, grant 2 stat
points. -/
def Player.level_up (p : Player) (inc : LevelInc) : Player :=
  { p with
    experience := p.experience - p.experience_to_next_level,
    level := p.level + 1,
    experience_to_next_level := truncTimes1p2 p.experience_to_next_level,
    max_hp := p.max_hp + inc.hp_increase,
    hp := p.hp + inc.hp_increase,
    max_mana := p.max_mana + inc.mana_increase,
    mana := p.mana + inc.mana_increase,
    attack := p.attack + inc.attack_increase,
    defense := p.defense + inc.defense_increase,
    stat_points := p.stat_points + 2 }

/-- The `while self.experience >= self.experience_to_next_level` loop of
`Player.gain_experience`.  `rnd i` supplies the stat increases drawn by
the `i`-th `level_up` call; `fuel` bounds the number of iterations (the
Python loop runs unboundedly; every terminating run is reproduced by
any sufficiently large fuel). -/
def Player.gain_experience_go : Nat → Nat → (Nat → LevelInc) → Player → Player
  | 0, _, _, p => p
  | fuel + 1, i, rnd, p =>
      if p.experience ≥ p.experience_to_next_level then
        Player.gain_experience_go fuel (i + 1) rnd (p.level_up (rnd i))
      else p

/-- `Player.gain_experience(exp)`: add the experience, then level up while
the threshold is met. -/
def Player.gain_experience (p : Player) (exp : Int) (rnd : Nat → LevelInc)
    (fuel : Nat) : Player :=
  Player.gain_experience_go fuel 0 rnd
    { p with experience := p.experience + exp }

/-- `Player.allocate_stat_point(stat)`: spend one stat point on one of the
four allowed stats (raising current hp/mana alongside the maxima);
returns whether a point was spent. -/
def Player.allocate_stat_point (p : Player) (stat : String) : Bool × Player :=
  if p.stat_points > 0 then
    if stat = "max_hp" then
      (true, { p with max_hp := p.max_hp + 1, hp := p.hp + 1,
                      stat_points := p.stat_points - 1 })
    else if stat = "max_mana" then
      (true, { p with max_mana := p.max_mana + 1, mana := p.mana + 1,
                      stat_points := p.stat_points - 1 })
    else if stat = "attack" then
      (true, { p with attack := p.attack + 1,
                      stat_points := p.stat_points - 1 })
    else if stat = "defense" then
      (true, { p with defense := p.defense + 1,
                      stat_points := p.stat_points - 1 })
    else (false, p)
  else (false, p)

/-- `Player.add_gold(amount)`. -/
def Player.add_gold (p : Player) (amount : Int) : Player :=
  { p with gold := p.gold + amount }

/-- `Player.spend_gold(amount)`: deduct and return `True` if affordable,
else return `False` unchanged. -/
def Player.spend_gold (p : Player) (amount : Int) : Bool × Player :=
  if p.gold ≥ amount then (true, { p with gold := p.gold - amount })
  else (false, p)

/-- `class Enemy(Character)` — extra fields set in `Enemy.__init__`
(`drop_table` chances are floats, modelled as exact rationals). -/
structure Enemy extends Character where
  level : Int
  exp_reward : Int
  gold_reward : Int
  drop_table : List (Item × ℚ)
deriving DecidableEq

/-- `random.choice(lst)` for a selection index `k`: the element at
`k % len(lst)` (some element of the list; `none` on the empty list,
where Python would raise). -/
def randChoice (k : Nat) (l : List Ability) : Option Ability :=
  l[k % l.length]?

/-- `Enemy.ai_choose_ability(target)`: the 7-tier priority ladder over the
usable abilities, with a fallback tier.  `k` stands for the index drawn
by the single `random.choice` call that executes.  Each source tier
`if cond: tier = filter(...); if tier: return choice(tier)` is written
as one guarded conditional `cond ∧ tier ≠ []`. -/
def Enemy.ai_choose_ability (e : Enemy) (target : Character) (k : Nat) :
    Option Ability :=
  let usable_abilities :=
    e.toCharacter.abilities.filter (fun a => a.can_use e.toCharacter)
  if usable_abilities = [] then none
  else
    let heal_abilities := usable_abilities.filter
      (fun a => a.ability_type = AbilityType.HEAL)
    if (e.toCharacter.hp : ℚ) < (e.toCharacter.max_hp : ℚ) * (1 / 4 : ℚ)
        ∧ heal_abilities ≠ [] then
      randChoice k heal_abilities
    else
      let buff_abilities := usable_abilities.filter
        (fun a => a.ability_type = AbilityType.BUFF)
      if (¬ e.toCharacter.status_effects.any (fun eff =>
            eff.effect_type = StatusEffectType.STRENGTH_BOOST
            ∨ eff.effect_type = StatusEffectType.DEFENSE_BOOST
            ∨ eff.effect_type = StatusEffectType.SPEED_BOOST
            ∨ eff.effect_type = StatusEffectType.REGENERATION))
          ∧ buff_abilities ≠ [] then
        randChoice k buff_abilities
      else
        let damage_over_time_abilities := usable_abilities.filter (fun a =>
          match a.status_effect with
          | some se => se.effect_type = StatusEffectType.POISON
              ∨ se.effect_type = StatusEffectType.BURN
          | none => false)
        if (¬ target.has_status_effect StatusEffectType.POISON
              ∧ ¬ target.has_status_effect StatusEffectType.BURN)
            ∧ damage_over_time_abilities ≠ [] then
          randChoice k damage_over_time_abilities
        else
          let cc_abilities := usable_abilities.filter (fun a =>
            match a.status_effect with
            | some se => se.effect_type = StatusEffectType.STUN
                ∨ se.effect_type = StatusEffectType.FREEZE
            | none => false)
          if (¬ target.has_status_effect StatusEffectType.STUN
                ∧ ¬ target.has_status_effect StatusEffectType.FREEZE)
              ∧ cc_abilities ≠ [] then
            randChoice k cc_abilities
          else
            let debuff_abilities := usable_abilities.filter (fun a =>
              match a.status_effect with
              | some se => se.effect_type = StatusEffectType.WEAKNESS
                  ∨ se.effect_type = StatusEffectType.VULNERABILITY
              | none => false)
            if (¬ target.has_status_effect StatusEffectType.WEAKNESS
                  ∧ ¬ target.has_status_effect StatusEffectType.VULNERABILITY)
                ∧ debuff_abilities ≠ [] then
              randChoice k debuff_abilities
            else
              let high_damage_abilities := usable_abilities.filter (fun a =>
                a.ability_type = AbilityType.ATTACK ∧ a.power ≥ 20)
              if high_damage_abilities ≠ [] then
                randChoice k high_damage_abilities
              else
                let attack_abilities := usable_abilities.filter
                  (fun a => a.ability_type = AbilityType.ATTACK)
                if attack_abilities ≠ [] then
                  randChoice k attack_abilities
                else
                  randChoice k usable_abilities

/-- `class Shop` — fields set in `Shop.__init__` (price multipliers are
Python floats, modelled as exact rationals; the defaults 1.0 and 0.5
are exactly representable). -/
structure Shop where
  name : String
  inventory : List Item
  buy_price_multiplier : ℚ
  sell_price_multiplier : ℚ

/-- `Shop(name)`. -/
def Shop.make (name : String) : Shop :=
  ⟨name, [], 1, 1 / 2⟩

/-- Python `int(q)`: truncation toward zero. -/
def intTrunc (q : ℚ) : Int :=
  if 0 ≤ q then ⌊q⌋ else ⌈q⌉

/-- `Shop.get_buy_price(item)`: `int(item.value * buy_price_multiplier)`. -/
def Shop.get_buy_price (s : Shop) (item : Item) : Int :=
  intTrunc ((item.value : ℚ) * s.buy_price_multiplier)

/-- `Shop.remove_item(item)`: remove the first matching unit; returns
whether one was removed. -/
def Shop.remove_item (s : Shop) (item : Item) : Bool × Shop :=
  if s.inventory.contains item then
    (true, { s with inventory := removeFirstItem s.inventory item })
  else (false, s)

/-- `Shop.buy_item(player, item)`: fail when the item is not in stock or
`spend_gold(price)` fails; on success remove one unit from stock and
append the item to the player's inventory. -/
def Shop.buy_item (s : Shop) (p : Player) (item : Item) :
    Bool × Shop × Player :=
  if s.inventory.contains item = false then (false, s, p)
  else
    let price := s.get_buy_price item
    let (ok, p1) := p.spend_gold price
    if ok then
      let (_, s1) := s.remove_item item
      let p2 := { p1 with toCharacter := p1.toCharacter.add_item item }
      (true, s1, p2)
    else (false, s, p1)

/-! ### Specification-level helpers

`tickEffect` and `effectMessage` describe the per-effect outcome of one
`apply_effect` call (the effect's decrement and the produced message);
they are used to characterise `process_status_effects`. -/

/-- The effect as left by one `apply_effect` call: `remaining_duration`
decremented when it was positive, untouched otherwise. -/
def tickEffect (e : StatusEffect) : StatusEffect :=
  if e.remaining_duration ≤ 0 then e
  else { e with remaining_duration := e.remaining_duration - 1 }

/-- The message produced by one `apply_effect` call on a character named
`n` (`""` when the effect is already expired, and for `SPEED_BOOST`,
which matches no branch in the source). -/
def effectMessage (n : String) (e : StatusEffect) : String :=
  if e.remaining_duration ≤ 0 then ""
  else
    match e.effect_type with
    | .POISON => n ++ " takes " ++ toString e.power ++ " poison damage!"
    | .BURN => n ++ " takes " ++ toString e.power ++ " burn damage!"
    | .REGENERATION => n ++ " regenerates " ++ toString e.power ++ " HP!"
    | .FREEZE => n ++ " is frozen and cannot act!"
    | .STUN => n ++ " is stunned and cannot act!"
    | .STRENGTH_BOOST => n ++ " is affected by " ++ e.name ++ "!"
    | .WEAKNESS => n ++ " is affected by " ++ e.name ++ "!"
    | .DEFENSE_BOOST => n ++ " is affected by " ++ e.name ++ "!"
    | .VULNERABILITY => n ++ " is affected by " ++ e.name ++ "!"
    | .SPEED_BOOST => ""

/-- Sum of the values bound to `key` in a stats list, transformed by `g`
(`g = id` for `equip_item`, `g = Int.neg` for `unequip_item`). -/
def sumForKey (g : Int → Int) (key : String) (l : List (String × Int)) : Int :=
  ((l.filter (fun q => q.1 = key)).map (fun q => g q.2)).sum

/-! ### Operation sequences

The public single-character operations named by the specification's
invariant, as one inductive type, with `Ability.use` invoked in the
caster role (no target).  Damage or status effects received from another
character's ability arrive through `takeDamage` / `addStatusEffect`. -/

/-- One public operation on a `Player`. -/
inductive Op where
  | takeDamage (amount : Int)
  | heal (amount : Int)
  | restoreMana (amount : Int)
  | equipItem (item : Item) (slot? : Option String)
  | unequipItem (slot : String)
  | addStatusEffect (e : StatusEffect)
  | processStatusEffects
  | useAbility (ab : Ability) (r : Int)
  | levelUp (inc : LevelInc)
  | allocateStatPoint (stat : String)

/-- Apply one operation to a player. -/
def applyOp (p : Player) : Op → Player
  | .takeDamage amount =>
      { p with toCharacter := (p.toCharacter.take_damage amount).2 }
  | .heal amount => { p with toCharacter := p.toCharacter.heal amount }
  | .restoreMana amount =>
      { p with toCharacter := p.toCharacter.restore_mana amount }
  | .equipItem item slot? =>
      { p with toCharacter := p.toCharacter.equip_item item slot? }
  | .unequipItem slot =>
      { p with toCharacter := p.toCharacter.unequip_item slot }
  | .addStatusEffect e =>
      { p with toCharacter := p.toCharacter.add_status_effect e }
  | .processStatusEffects =>
      { p with toCharacter := p.toCharacter.process_status_effects.1 }
  | .useAbility ab r =>
      { p with toCharacter := (ab.use p.toCharacter none r).2.1 }
  | .levelUp inc => p.level_up inc
  | .allocateStatPoint stat => (p.allocate_stat_point stat).2

/-- An item whose stat deltas touch only the base attack and defense. -/
def statsOnlyAttackDefense (item : Item) : Prop :=
  ∀ q ∈ item.stats, q.1 = "attack" ∨ q.1 = "defense"

/-- A status effect whose periodic action cannot push hp out of range:
regeneration power is nonnegative. -/
def wfEffect (e : StatusEffect) : Prop :=
  e.effect_type = StatusEffectType.REGENERATION → 0 ≤ e.power

/-- An ability use that cannot push hp or mana out of range: nonnegative
mana cost, nonnegative drawn heal amount, well-formed attached effect. -/
def wfAbility (ab : Ability) (r : Int) : Prop :=
  0 ≤ ab.mana_cost
  ∧ (ab.ability_type = AbilityType.HEAL → 0 ≤ ab.power + r)
  ∧ (match ab.status_effect with
     | some se => wfEffect se
     | none => True)

/-- Side conditions under which an operation respects the hp/mana
invariants (the amendment to the specification's unconditional claim):
nonnegative heal/restore amounts, attack/defense-only item stats,
well-formed status effects and abilities, and level-up increases in
their `randint` ranges. -/
def wfOp : Op → Prop
  | .takeDamage _ => True
  | .heal amount => 0 ≤ amount
  | .restoreMana amount => 0 ≤ amount
  | .equipItem item _ => statsOnlyAttackDefense item
  | .unequipItem _ => True
  | .addStatusEffect e => wfEffect e
  | .processStatusEffects => True
  | .useAbility ab r => wfAbility ab r
  | .levelUp inc =>
      (8 ≤ inc.hp_increase ∧ inc.hp_increase ≤ 12)
      ∧ (3 ≤ inc.mana_increase ∧ inc.mana_increase ≤ 7)
      ∧ (1 ≤ inc.attack_increase ∧ inc.attack_increase ≤ 3)
      ∧ (1 ≤ inc.defense_increase ∧ inc.defense_increase ≤ 2)
  | .allocateStatPoint _ => True

/-- The hp/mana range invariants of the specification. -/
def InvCore (c : Character) : Prop :=
  0 ≤ c.hp ∧ c.hp ≤ c.max_hp ∧ 0 ≤ c.mana ∧ c.mana ≤ c.max_mana

/-- Inductive strengthening of `InvCore`: every equipped item has
attack/defense-only stats and every active effect is well-formed. -/
def Inv (c : Character) : Prop :=
  InvCore c
  ∧ (∀ q ∈ c.equipped, statsOnlyAttackDefense q.2)
  ∧ (∀ e ∈ c.status_effects, wfEffect e)

/-- At most one active status effect per type. -/
def atMostOnePerType (l : List StatusEffect) : Prop :=
  ∀ t : StatusEffectType, l.countP (fun e => e.effect_type = t) ≤ 1

instance (item : Item) : Decidable (statsOnlyAttackDefense item) := by
  unfold statsOnlyAttackDefense
  infer_instance

instance (e : StatusEffect) : Decidable (wfEffect e) := by
  unfold wfEffect
  infer_instance

instance (ab : Ability) (r : Int) : Decidable (wfAbility ab r) := by
  unfold wfAbility
  rcases hs : ab.status_effect with _ | se <;> dsimp only <;> infer_instance

instance (op : Op) : Decidable (wfOp op) := by
  cases op <;> dsimp only [wfOp] <;> infer_instance

/-! ### Concrete data for witnesses and counterexamples -/

/-- A plain character with no equipment or effects. -/
def heroC : Character := Character.make "Hero" 100 50 10 5

/-- A fireball ability currently on cooldown (`current_cooldown = 1`). -/
def abOnCooldown : Ability :=
  { Ability.make "Fireball" AbilityType.ATTACK 12 5 "" 2 none with
    current_cooldown := 1 }

/-- A ready attack ability with a mana cost. -/
def abAttackReady : Ability :=
  Ability.make "Slash" AbilityType.ATTACK 8 3 "" 1 none

/-- A ready, zero-cost heal ability. -/
def abHealReady : Ability :=
  Ability.make "Mend" AbilityType.HEAL 10 0 "" 0 none

/-- Two poison effects with different durations. -/
def poisonA : StatusEffect :=
  StatusEffect.make "Poison A" StatusEffectType.POISON 3 4 ""

/-- Second poison application, different duration. -/
def poisonB : StatusEffect :=
  StatusEffect.make "Poison B" StatusEffectType.POISON 5 2 ""

/-- An enemy at 20 of 100 hp with one usable heal and one usable attack
ability. -/
def enemyC5 : Enemy :=
  { toCharacter :=
      { Character.make "Goblin" 100 20 8 3 with
        hp := 20, abilities := [abAttackReady, abHealReady] },
    level := 1, exp_reward := 25, gold_reward := 10, drop_table := [] }

/-- An already-equipped weapon (+5 attack). -/
def itemOldC7 : Item := ⟨"Old Sword", ItemType.WEAPON, 10, "", [("attack", 5)]⟩

/-- A weapon in the inventory (+3 attack). -/
def itemNewC7 : Item := ⟨"New Sword", ItemType.WEAPON, 20, "", [("attack", 3)]⟩

/-- A character whose weapon slot is already occupied by `itemOldC7`
while `itemNewC7` sits in the inventory. -/
def charC7 : Character :=
  { Character.make "Hero" 100 50 15 5 with
    inventory := [itemNewC7], equipped := [("weapon", itemOldC7)] }

/-- A character with `itemNewC7` in the inventory and nothing equipped. -/
def charC7b : Character :=
  { Character.make "Hero" 100 50 15 5 with inventory := [itemNewC7] }

/-- An item with a negative gold value (the shop code never excludes
these). -/
def itemC9 : Item := ⟨"Cursed Orb", ItemType.MISC, -5, "", []⟩

/-- A shop stocking `itemC9` with the default 0.5 multiplier as its buy
multiplier. -/
def shopC9 : Shop := ⟨"General Store", [itemC9], 1 / 2, 1 / 2⟩

/-- A player with no gold. -/
def playerC9 : Player := Player.make "Ann" 100 50 10 5

/-- An ordinarily-priced item for the amended-C9 witness. -/
def itemC9b : Item := ⟨"Potion", ItemType.CONSUMABLE, 100, "", []⟩

/-- A 1.5-multiplier shop stocking `itemC9b`. -/
def shopC9b : Shop := ⟨"Magic Shop", [itemC9b], 3 / 2, 1 / 2⟩

/-- A player holding 150 gold. -/
def playerC9b : Player := { Player.make "Bob" 100 50 10 5 with gold := 150 }

/-- A sample well-formed operation sequence exercising every operation
kind. -/
def opsW : List Op :=
  [Op.takeDamage 200, Op.heal 5, Op.restoreMana 3,
   Op.addStatusEffect poisonA, Op.processStatusEffects,
   Op.equipItem itemNewC7 none, Op.unequipItem "weapon",
   Op.useAbility abHealReady 1, Op.levelUp ⟨8, 3, 1, 1⟩,
   Op.allocateStatPoint "max_hp"]

/-! ## Theorems -/

/-- C2: for every character and every integer amount, `take_damage`
returns `actual_damage = max(1, amount - get_total_defense())`, which is
always at least 1 regardless of the defense magnitude, sets
`hp = max(0, hp - actual_damage)`, and leaves every other field
unchanged. -/
theorem claim_C2 (c : Character) (amount : Int) :
    (c.take_damage amount).1 = max 1 (amount - c.get_total_defense)
    ∧ 1 ≤ (c.take_damage amount).1
    ∧ (c.take_damage amount).2.hp = max 0 (c.hp - (c.take_damage amount).1)
    ∧ (c.take_damage amount).2.name = c.name
    ∧ (c.take_damage amount).2.max_hp = c.max_hp
    ∧ (c.take_damage amount).2.max_mana = c.max_mana
    ∧ (c.take_damage amount).2.mana = c.mana
    ∧ (c.take_damage amount).2.attack = c.attack
    ∧ (c.take_damage amount).2.defense = c.defense
    ∧ (c.take_damage amount).2.abilities = c.abilities
    ∧ (c.take_damage amount).2.inventory = c.inventory
    ∧ (c.take_damage amount).2.equipped = c.equipped
    ∧ (c.take_damage amount).2.status_effects = c.status_effects := by
  refine ⟨rfl, le_max_left _ _, ?_, rfl, rfl, rfl, rfl, rfl, rfl, rfl, rfl,
    rfl, rfl⟩
  rfl

/-- C3: when `can_use(caster)` is false, `Ability.use` deducts no mana,
leaves the cooldown and every character untouched, and returns an
"unable to act" message when the caster is action-prevented, otherwise
a generic "cannot use" message. -/
theorem claim_C3 (ab : Ability) (caster : Character)
    (target : Option Character) (r : Int)
    (h : ab.can_use caster = false) :
    ab.use caster target r =
      (ab, caster, target,
       if caster.is_action_prevented then
         caster.name ++ " is unable to act!"
       else
         caster.name ++ " cannot use " ++ ab.name ++ "!") := by
  rw [Ability.use, if_pos h]
  by_cases hp : caster.is_action_prevented
  · rw [if_pos hp, if_pos hp]
  · rw [if_neg hp, if_neg hp]

/-- Witness for C3 at a concrete input: a fireball on cooldown fails with
the generic message and changes nothing. -/
theorem claim_C3_witness :
    abOnCooldown.use heroC none 0 =
      (abOnCooldown, heroC, none,
       if heroC.is_action_prevented then
         heroC.name ++ " is unable to act!"
       else
         heroC.name ++ " cannot use " ++ abOnCooldown.name ++ "!") :=
  claim_C3 abOnCooldown heroC none 0 (by decide)

/-- C10: a usable Attack-type ability invoked with no target consumes its
mana cost and starts its cooldown, yet deals no damage, attaches no
status effect, changes nothing else, and returns the empty string. -/
theorem claim_C10 (ab : Ability) (caster : Character) (r : Int)
    (htype : ab.ability_type = AbilityType.ATTACK)
    (h : ab.can_use caster = true) :
    ab.use caster none r =
      ({ ab with current_cooldown := ab.cooldown },
       { caster with mana := caster.mana - ab.mana_cost },
       none, "") := by
  rw [Ability.use, if_neg (by simp [h]), htype]

/-- Witness for C10 at a concrete input: a ready slash with no target
burns 3 mana and starts its cooldown, returning `""`. -/
theorem claim_C10_witness :
    abAttackReady.use heroC none 0 =
      ({ abAttackReady with current_cooldown := abAttackReady.cooldown },
       { heroC with mana := heroC.mana - abAttackReady.mana_cost },
       none, "") :=
  claim_C10 abAttackReady heroC 0 rfl (by decide)

/-- Removing the first effect of type `t` and filtering for type `t`
drops exactly the head of the filtered list. -/
theorem filter_removeFirstOfType (l : List StatusEffect) (t : StatusEffectType) :
    (removeFirstOfType l t).filter (fun e => e.effect_type = t)
      = (l.filter (fun e => e.effect_type = t)).tail := by
  induction l with
  | nil => rfl
  | cons e rest ih =>
      by_cases h : e.effect_type = t
      · simp [removeFirstOfType, h, List.filter_cons]
      · simp [removeFirstOfType, h, List.filter_cons, ih]

/-- Removing an effect never increases any per-type count. -/
theorem countP_removeFirstOfType_le (l : List StatusEffect)
    (t u : StatusEffectType) :
    (removeFirstOfType l t).countP (fun e => e.effect_type = u)
      ≤ l.countP (fun e => e.effect_type = u) := by
  induction l with
  | nil => simp [removeFirstOfType]
  | cons e rest ih =>
      by_cases h : e.effect_type = t
      · simp only [removeFirstOfType, if_pos h, List.countP_cons]
        omega
      · simp only [removeFirstOfType, if_neg h, List.countP_cons]
        omega

/-- `add_status_effect` preserves the at-most-one-effect-per-type
invariant. -/
theorem add_status_effect_atMostOne (d : Character) (e : StatusEffect)
    (h : atMostOnePerType d.status_effects) :
    atMostOnePerType (d.add_status_effect e).status_effects := by
  intro t
  show ((removeFirstOfType d.status_effects e.effect_type)
      ++ [e]).countP (fun x => x.effect_type = t) ≤ 1
  rw [List.countP_append]
  by_cases hte : e.effect_type = t
  · have h0 : (removeFirstOfType d.status_effects e.effect_type).countP
        (fun x => x.effect_type = t) = 0 := by
      rw [List.countP_eq_length_filter, ← hte, filter_removeFirstOfType,
        List.length_tail]
      have h1 := h e.effect_type
      rw [List.countP_eq_length_filter] at h1
      rw [hte] at h1 ⊢
      omega
    have h2 : ([e].countP (fun x => x.effect_type = t)) = 1 := by
      simp [List.countP_cons, hte]
    omega
  · have h2 : ([e].countP (fun x => x.effect_type = t)) = 0 := by
      simp [List.countP_cons, hte]
    have h3 := countP_removeFirstOfType_le d.status_effects e.effect_type t
    have h4 := h t
    omega

/-- C4: adding a status effect whose type is already active replaces the
existing effect of that type (losing its remaining duration) and
appends the new one, so after two applications of the same type exactly
one effect of that type is active — the second one, with its own
duration — and every character with at most one active effect per type
keeps that invariant under `add_status_effect`. -/
theorem claim_C4 (c : Character) (e1 e2 : StatusEffect)
    (ht : e2.effect_type = e1.effect_type)
    (hinv : atMostOnePerType c.status_effects) :
    (((c.add_status_effect e1).add_status_effect e2).status_effects.filter
        (fun e => e.effect_type = e1.effect_type)) = [e2]
    ∧ atMostOnePerType
        ((c.add_status_effect e1).add_status_effect e2).status_effects
    ∧ ∀ (d : Character) (e : StatusEffect),
        atMostOnePerType d.status_effects →
        atMostOnePerType (d.add_status_effect e).status_effects := by
  refine ⟨?_, add_status_effect_atMostOne _ _ (add_status_effect_atMostOne _ _ hinv),
    fun d e h => add_status_effect_atMostOne d e h⟩
  have hfil1 : ((c.add_status_effect e1).status_effects.filter
      (fun e => e.effect_type = e1.effect_type)) = [e1] := by
    show ((removeFirstOfType c.status_effects e1.effect_type)
        ++ [e1]).filter (fun e => e.effect_type = e1.effect_type) = [e1]
    rw [List.filter_append, filter_removeFirstOfType]
    have h1 := hinv e1.effect_type
    rw [List.countP_eq_length_filter] at h1
    have h2 : ((c.status_effects.filter
        (fun e => e.effect_type = e1.effect_type)).tail) = [] := by
      have := List.length_tail (c.status_effects.filter
        (fun e => e.effect_type = e1.effect_type))
      refine List.eq_nil_of_length_eq_zero ?_
      omega
    rw [h2]
    simp [List.filter_cons]
  show (((c.add_status_effect e1).add_status_effect e2).status_effects.filter
      (fun e => e.effect_type = e1.effect_type)) = [e2]
  show ((removeFirstOfType (c.add_status_effect e1).status_effects
      e2.effect_type) ++ [e2]).filter
        (fun e => e.effect_type = e1.effect_type) = [e2]
  rw [List.filter_append, ht, filter_removeFirstOfType, hfil1]
  simp [List.filter_cons, ht]

/-- Witness for C4 at a concrete input: applying `poisonA` then `poisonB`
to a fresh character leaves exactly one poison effect, namely `poisonB`,
and the at-most-one-per-type invariant holds. -/
theorem claim_C4_witness :
    (((heroC.add_status_effect poisonA).add_status_effect
        poisonB).status_effects.filter
          (fun e => e.effect_type = poisonA.effect_type)) = [poisonB]
    ∧ atMostOnePerType
        ((heroC.add_status_effect poisonA).add_status_effect
          poisonB).status_effects := by
  have h := claim_C4 heroC poisonA poisonB rfl
    (by intro t; simp [heroC, Character.make, atMostOnePerType])
  exact ⟨h.1, h.2.1⟩

/-- `random.choice` modelled by `randChoice` returns some member of any
nonempty list. -/
theorem randChoice_mem (k : Nat) (l : List Ability) (h : l ≠ []) :
    ∃ a, randChoice k l = some a ∧ a ∈ l := by
  have hlen : 0 < l.length := List.length_pos.mpr h
  have hk : k % l.length < l.length := Nat.mod_lt _ hlen
  exact ⟨l[k % l.length], by simp [randChoice, List.getElem?_eq_getElem hk],
    List.getElem_mem hk⟩

/-- C5: an enemy below a quarter of its max hp whose usable abilities
include a Heal-type ability always gets a Heal-type ability from
`ai_choose_ability` — tier 1 pre-empts every later tier. -/
theorem claim_C5 (e : Enemy) (target : Character) (k : Nat)
    (hlow : (e.toCharacter.hp : ℚ) < (e.toCharacter.max_hp : ℚ) * (1 / 4 : ℚ))
    (hheal : ∃ a ∈ e.toCharacter.abilities.filter
        (fun a => a.can_use e.toCharacter),
        a.ability_type = AbilityType.HEAL) :
    ∃ a, e.ai_choose_ability target k = some a
      ∧ a.ability_type = AbilityType.HEAL := by
  obtain ⟨a0, ha0mem, ha0heal⟩ := hheal
  have husne : e.toCharacter.abilities.filter
      (fun a => a.can_use e.toCharacter) ≠ [] := by
    intro hco
    rw [hco] at ha0mem
    exact absurd ha0mem (List.not_mem_nil a0)
  have hmem2 : a0 ∈ (e.toCharacter.abilities.filter
      (fun a => a.can_use e.toCharacter)).filter
        (fun a => a.ability_type = AbilityType.HEAL) :=
    List.mem_filter.mpr ⟨ha0mem, by simp [ha0heal]⟩
  have hne : (e.toCharacter.abilities.filter
      (fun a => a.can_use e.toCharacter)).filter
        (fun a => a.ability_type = AbilityType.HEAL) ≠ [] := by
    intro hco
    rw [hco] at hmem2
    exact absurd hmem2 (List.not_mem_nil a0)
  obtain ⟨a, hch, hmem⟩ := randChoice_mem k _ hne
  refine ⟨a, ?_, by simpa using (List.mem_filter.mp hmem).2⟩
  simp only [Enemy.ai_choose_ability]
  rw [if_neg husne, if_pos ⟨hlow, hne⟩, hch]

/-- Witness for C5 at a concrete input: `enemyC5` sits at 20/100 hp with
one usable heal and one usable attack; the AI picks a Heal ability. -/
theorem claim_C5_witness :
    ∃ a, enemyC5.ai_choose_ability heroC 0 = some a
      ∧ a.ability_type = AbilityType.HEAL :=
  claim_C5 enemyC5 heroC 0 (by norm_num [enemyC5, Character.make])
    ⟨abHealReady, by decide, rfl⟩

/-- One `apply_effect` call: the effect is ticked, the message is
`effectMessage`, and every character field except `hp` is untouched. -/
theorem apply_effect_spec (e : StatusEffect) (c : Character) :
    (e.apply_effect c).1 = tickEffect e
    ∧ (e.apply_effect c).2.2 = effectMessage c.name e
    ∧ (e.apply_effect c).2.1.name = c.name
    ∧ (e.apply_effect c).2.1.status_effects = c.status_effects
    ∧ (e.apply_effect c).2.1.max_hp = c.max_hp
    ∧ (e.apply_effect c).2.1.max_mana = c.max_mana
    ∧ (e.apply_effect c).2.1.mana = c.mana
    ∧ (e.apply_effect c).2.1.attack = c.attack
    ∧ (e.apply_effect c).2.1.defense = c.defense
    ∧ (e.apply_effect c).2.1.abilities = c.abilities
    ∧ (e.apply_effect c).2.1.inventory = c.inventory
    ∧ (e.apply_effect c).2.1.equipped = c.equipped := by
  by_cases h : e.remaining_duration ≤ 0
  · simp [StatusEffect.apply_effect, tickEffect, effectMessage, h]
  · cases he : e.effect_type <;>
      simp [StatusEffect.apply_effect, tickEffect, effectMessage, h, he,
        Character.take_damage, Character.heal]

/-- The status-effect pass: every effect in `todo` is processed exactly
once (ticked) in stored order with no early exit, the non-empty
messages are collected in order, and the pass changes no character
field except `hp` and the live effect list. -/
theorem processGo_spec (todo : List StatusEffect) (done : List StatusEffect)
    (c : Character) :
    (processGo c done todo).2.1 = done ++ todo.map tickEffect
    ∧ (processGo c done todo).2.2
        = (todo.map (effectMessage c.name)).filter (fun m => m ≠ "")
    ∧ (processGo c done todo).1.name = c.name
    ∧ (processGo c done todo).1.max_hp = c.max_hp
    ∧ (processGo c done todo).1.max_mana = c.max_mana
    ∧ (processGo c done todo).1.mana = c.mana
    ∧ (processGo c done todo).1.equipped = c.equipped
    ∧ (processGo c done todo).1.abilities = c.abilities
    ∧ (processGo c done todo).1.inventory = c.inventory := by
  induction todo generalizing done c with
  | nil => simp [processGo]
  | cons e rest ih =>
      have hspec := apply_effect_spec e
        { c with status_effects := done ++ e :: rest }
      simp only [processGo]
      rcases hx : e.apply_effect { c with status_effects := done ++ e :: rest }
        with ⟨e', c', msg⟩
      rw [hx] at hspec
      obtain ⟨he', hmsg, hname, -, hmax_hp, hmax_mana, hmana, -, -, hab, hinv,
        heq⟩ := hspec
      have hih := ih (done ++ [e']) c'
      rcases hy : processGo c' (done ++ [e']) rest with ⟨c'', done', msgs⟩
      rw [hy] at hih
      obtain ⟨hd, hm, hn, hh, hmm, hma, heqq, habb, hinvv⟩ := hih
      dsimp only at he' hmsg hname hmax_hp hmax_mana hmana hab hinv heq
      dsimp only at hd hm hn hh hmm hma heqq habb hinvv
      dsimp only
      refine ⟨?_, ?_, by rw [hn, hname], by rw [hh, hmax_hp],
        by rw [hmm, hmax_mana], by rw [hma, hmana], by rw [heqq, heq],
        by rw [habb, hab], by rw [hinvv, hinv]⟩
      · rw [hd, he']
        simp [List.append_assoc]
      · rw [hm, hmsg, hname]
        by_cases hz : effectMessage c.name e = ""
        · simp [hz, List.filter_cons]
        · simp [hz, List.filter_cons]

/-- C6: `process_status_effects` applies `apply_effect` to each active
effect in stored order with no early exit, collects the non-empty
messages, then removes every effect expired after the pass, appending a
worn-off message per removed effect in removal order. -/
theorem claim_C6 (c : Character) :
    c.process_status_effects.1.status_effects
      = (c.status_effects.map tickEffect).filter (fun e => ¬ e.is_expired)
    ∧ c.process_status_effects.2
      = (c.status_effects.map (effectMessage c.name)).filter (fun m => m ≠ "")
        ++ ((c.status_effects.map tickEffect).filter
            (fun e => e.is_expired)).map (fun e => wornOffMessage c.name e) := by
  have h := processGo_spec c.status_effects [] c
  rcases hx : processGo c [] c.status_effects with ⟨c1, effs, msgs⟩
  rw [hx] at h
  obtain ⟨hd, hm, -⟩ := h
  simp only at hd hm
  rw [List.nil_append] at hd
  constructor
  · simp only [Character.process_status_effects, hx]
    rw [hd]
  · simp only [Character.process_status_effects, hx]
    rw [hd, hm]

/-- The level-up loop stops as soon as the experience is below the
threshold, whatever fuel remains. -/
theorem gain_go_stop (n i : Nat) (rnd : Nat → LevelInc) (p : Player)
    (h : ¬ p.experience ≥ p.experience_to_next_level) :
    Player.gain_experience_go n i rnd p = p := by
  cases n with
  | zero => rfl
  | succ m => rw [Player.gain_experience_go, if_neg h]

/-- C8: from `experience = 0` and `experience_to_next_level = 100`,
`gain_experience(250)` levels up exactly twice — consuming the
thresholds 100 and `int(100*1.2) = 120` — leaving `experience = 30`,
`experience_to_next_level = int(int(100*1.2)*1.2) = 144`, the level
raised by 2 and `stat_points` raised by 4. -/
theorem claim_C8 (p : Player) (rnd : Nat → LevelInc) (fuel : Nat)
    (hfuel : 2 ≤ fuel) (he : p.experience = 0)
    (ht : p.experience_to_next_level = 100) :
    (p.gain_experience 250 rnd fuel).experience = 30
    ∧ (p.gain_experience 250 rnd fuel).experience_to_next_level = 144
    ∧ (p.gain_experience 250 rnd fuel).level = p.level + 2
    ∧ (p.gain_experience 250 rnd fuel).stat_points = p.stat_points + 4 := by
  obtain ⟨f, rfl⟩ : ∃ f, fuel = f + 2 := ⟨fuel - 2, by omega⟩
  have e1 : truncTimes1p2 100 = 120 := by decide
  have e2 : truncTimes1p2 120 = 144 := by decide
  have hgo : p.gain_experience 250 rnd (f + 2)
      = ({ p with experience := p.experience + 250 }.level_up
          (rnd 0)).level_up (rnd 1) := by
    rw [Player.gain_experience, Player.gain_experience_go,
      if_pos (by simp [he, ht]), Player.gain_experience_go,
      if_pos (by simp [Player.level_up, he, ht, e1])]
    rw [gain_go_stop]
    simp [Player.level_up, he, ht, e1, e2]
  rw [hgo]
  refine ⟨?_, ?_, ?_, ?_⟩ <;> simp [Player.level_up, he, ht, e1, e2] <;> omega

/-- Witness for C8 at a concrete input: a fresh player gaining 250
experience ends at 30/144 with level 3 and 4 stat points. -/
theorem claim_C8_witness :
    ((Player.make "Zed" 100 50 10 5).gain_experience 250
        (fun _ => ⟨8, 3, 1, 1⟩) 2).experience = 30
    ∧ ((Player.make "Zed" 100 50 10 5).gain_experience 250
        (fun _ => ⟨8, 3, 1, 1⟩) 2).experience_to_next_level = 144
    ∧ ((Player.make "Zed" 100 50 10 5).gain_experience 250
        (fun _ => ⟨8, 3, 1, 1⟩) 2).level = (Player.make "Zed" 100 50 10 5).level + 2
    ∧ ((Player.make "Zed" 100 50 10 5).gain_experience 250
        (fun _ => ⟨8, 3, 1, 1⟩) 2).stat_points
        = (Player.make "Zed" 100 50 10 5).stat_points + 4 :=
  claim_C8 (Player.make "Zed" 100 50 10 5) (fun _ => ⟨8, 3, 1, 1⟩) 2
    (by omega) rfl rfl

/-- C9 (amended): `buy_item` returns `false` and changes nothing whenever
the item is not in stock or the player's gold is below
`int(item.value * buy_price_multiplier)` — Python `int()` truncation
toward zero, which is the floor only for nonnegative prices — and on
success deducts exactly that truncated price, removes one unit from the
shop stock, and appends the item to the player's inventory. -/
theorem claim_C9_amended (s : Shop) (p : Player) (item : Item) :
    ((s.inventory.contains item = false ∨ p.gold < s.get_buy_price item) →
      s.buy_item p item = (false, s, p))
    ∧ (s.inventory.contains item = true → s.get_buy_price item ≤ p.gold →
      s.buy_item p item =
        (true,
         { s with inventory := removeFirstItem s.inventory item },
         { p with gold := p.gold - s.get_buy_price item,
                  inventory := p.toCharacter.inventory ++ [item] })) := by
  constructor
  · rintro (h | h)
    · rw [Shop.buy_item, if_pos h]
    · by_cases hc : s.inventory.contains item
      · rw [Shop.buy_item, if_neg (by rw [hc]; simp)]
        simp [Player.spend_gold, not_le.mpr h]
      · rw [Shop.buy_item,
          if_pos (by revert hc; cases s.inventory.contains item <;> simp)]
  · intro hc hg
    have hm : item ∈ s.inventory := by simpa using hc
    rw [Shop.buy_item, if_neg (by rw [hc]; simp)]
    simp [Player.spend_gold, hg, Shop.remove_item, hc, hm,
      Character.add_item]

/-- Counterexample to C9 as stated: with a negative-value item the
deducted price is the truncation toward zero, not the floor — the
purchase succeeds but the player's gold changes by the truncated
price 2, not the floored price 3. -/
theorem claim_C9_counterexample :
    (shopC9.buy_item playerC9 itemC9).1 = true
    ∧ (shopC9.buy_item playerC9 itemC9).2.2.gold
        ≠ playerC9.gold
          - ⌊(itemC9.value : ℚ) * shopC9.buy_price_multiplier⌋ := by
  have hq : (itemC9.value : ℚ) * shopC9.buy_price_multiplier = -5 / 2 := by
    norm_num [itemC9, shopC9]
  have hprice : shopC9.get_buy_price itemC9 = -2 := by
    rw [Shop.get_buy_price, hq]
    simp only [intTrunc]
    rw [if_neg (by norm_num), show ((-5 : ℚ) / 2) = -(5 / 2) by norm_num,
      Int.ceil_neg]
    norm_num
  have hsg : playerC9.spend_gold (shopC9.get_buy_price itemC9)
      = (true, { playerC9 with gold := playerC9.gold - (-2) }) := by
    rw [hprice, Player.spend_gold, if_pos (by decide)]
  have hrm : shopC9.remove_item itemC9
      = (true,
         { shopC9 with
           inventory := removeFirstItem shopC9.inventory itemC9 }) := by
    rw [Shop.remove_item, if_pos (by decide)]
  have hbuy : shopC9.buy_item playerC9 itemC9
      = (true,
         { shopC9 with inventory := removeFirstItem shopC9.inventory itemC9 },
         { playerC9 with
           gold := playerC9.gold - (-2),
           inventory := playerC9.toCharacter.inventory ++ [itemC9] }) := by
    rw [Shop.buy_item, if_neg (by decide)]
    simp [hsg, hrm, Character.add_item]
  rw [hbuy, hq]
  constructor
  · rfl
  · norm_num

/-- Witness for the amended C9 at a concrete input: a 150-gold player
buys a value-100 item at multiplier 1.5 for exactly 150 gold. -/
theorem claim_C9_witness :
    shopC9b.buy_item playerC9b itemC9b =
      (true,
       { shopC9b with
         inventory := removeFirstItem shopC9b.inventory itemC9b },
       { playerC9b with
         gold := playerC9b.gold - shopC9b.get_buy_price itemC9b,
         inventory := playerC9b.toCharacter.inventory ++ [itemC9b] }) :=
  (claim_C9_amended shopC9b playerC9b itemC9b).2 (by decide)
    (by
      have h : shopC9b.get_buy_price itemC9b = 150 := by
        have hq : (itemC9b.value : ℚ) * shopC9b.buy_price_multiplier = 150 := by
          norm_num [itemC9b, shopC9b]
        rw [Shop.get_buy_price, hq]
        simp only [intTrunc]
        rw [if_pos (by norm_num)]
        norm_num
      rw [h]
      decide)

/-- `add_to_stat` characterised: each integer field gains the value when
the key names it. -/
theorem add_to_stat_spec (c : Character) (s : String) (v : Int) :
    c.add_to_stat s v =
      { c with
        max_hp := c.max_hp + (if s = "max_hp" then v else 0),
        hp := c.hp + (if s = "hp" then v else 0),
        max_mana := c.max_mana + (if s = "max_mana" then v else 0),
        mana := c.mana + (if s = "mana" then v else 0),
        attack := c.attack + (if s = "attack" then v else 0),
        defense := c.defense + (if s = "defense" then v else 0) } := by
  rw [Character.add_to_stat]
  split_ifs with h1 h2 h3 h4 h5 h6 <;> simp_all

/-- Unfolding `sumForKey` over a cons. -/
theorem sumForKey_cons (g : Int → Int) (key : String) (q : String × Int)
    (rest : List (String × Int)) :
    sumForKey g key (q :: rest)
      = (if q.1 = key then g q.2 else 0) + sumForKey g key rest := by
  by_cases hq : q.1 = key <;> simp [sumForKey, List.filter_cons, hq]

/-- The stat-application fold adds, per integer field, the sum of the
values bound to that field's key; no other field changes. -/
theorem foldl_add_to_stat (g : Int → Int) (l : List (String × Int))
    (c : Character) :
    l.foldl (fun acc p => acc.add_to_stat p.1 (g p.2)) c
      = { c with
          max_hp := c.max_hp + sumForKey g "max_hp" l,
          hp := c.hp + sumForKey g "hp" l,
          max_mana := c.max_mana + sumForKey g "max_mana" l,
          mana := c.mana + sumForKey g "mana" l,
          attack := c.attack + sumForKey g "attack" l,
          defense := c.defense + sumForKey g "defense" l } := by
  induction l generalizing c with
  | nil => simp [sumForKey]
  | cons q rest ih =>
      rw [List.foldl_cons, ih, add_to_stat_spec]
      congr 1 <;> rw [sumForKey_cons] <;> ring

/-- `apply_item_stats` characterised by per-key sums. -/
theorem apply_item_stats_spec (c : Character) (item : Item) :
    c.apply_item_stats item
      = { c with
          max_hp := c.max_hp + sumForKey (fun v => v) "max_hp" item.stats,
          hp := c.hp + sumForKey (fun v => v) "hp" item.stats,
          max_mana := c.max_mana + sumForKey (fun v => v) "max_mana" item.stats,
          mana := c.mana + sumForKey (fun v => v) "mana" item.stats,
          attack := c.attack + sumForKey (fun v => v) "attack" item.stats,
          defense := c.defense + sumForKey (fun v => v) "defense" item.stats } := by
  have h := foldl_add_to_stat (fun v => v) item.stats c
  simpa [Character.apply_item_stats] using h

/-- `remove_item_stats` characterised by per-key sums. -/
theorem remove_item_stats_spec (c : Character) (item : Item) :
    c.remove_item_stats item
      = { c with
          max_hp := c.max_hp + sumForKey (fun v => -v) "max_hp" item.stats,
          hp := c.hp + sumForKey (fun v => -v) "hp" item.stats,
          max_mana := c.max_mana + sumForKey (fun v => -v) "max_mana" item.stats,
          mana := c.mana + sumForKey (fun v => -v) "mana" item.stats,
          attack := c.attack + sumForKey (fun v => -v) "attack" item.stats,
          defense := c.defense + sumForKey (fun v => -v) "defense" item.stats } := by
  have h := foldl_add_to_stat (fun v => -v) item.stats c
  simpa [Character.remove_item_stats] using h

/-- The negated-value sums are the negated sums. -/
theorem sumForKey_neg (key : String) (l : List (String × Int)) :
    sumForKey (fun v => -v) key l = -sumForKey (fun v => v) key l := by
  induction l with
  | nil => simp [sumForKey]
  | cons q rest ih =>
      rw [sumForKey_cons, sumForKey_cons, ih]
      split <;> ring

/-- Setting a fresh key appends the binding. -/
theorem dictSet_of_not_contains (d : List (String × Item)) (k : String)
    (v : Item) (h : dictContains d k = false) :
    dictSet d k v = d ++ [(k, v)] := by
  induction d with
  | nil => rfl
  | cons p rest ih =>
      simp only [dictContains, List.any_cons, Bool.or_eq_false_iff] at h
      rw [dictSet, if_neg (by simpa using h.1), ih (by simpa [dictContains] using h.2)]
      simp

/-- Reading the key just set returns the value just set. -/
theorem dictGet_dictSet_self (d : List (String × Item)) (k : String)
    (v : Item) : dictGet (dictSet d k v) k = some v := by
  induction d with
  | nil => simp [dictSet, dictGet, List.find?]
  | cons p rest ih =>
      by_cases hp : p.1 = k
      · simp [dictSet, hp, dictGet, List.find?]
      · rw [dictSet, if_neg hp]
        rw [dictGet] at ih ⊢
        simp only [List.find?]
        rw [show (decide (p.1 = k)) = false by simpa using hp]
        exact ih

/-- Deleting an appended fresh binding restores the dict. -/
theorem dictDel_append_of_not_contains (d : List (String × Item)) (k : String)
    (v : Item) (h : dictContains d k = false) :
    dictDel (d ++ [(k, v)]) k = d := by
  induction d with
  | nil => simp [dictDel]
  | cons p rest ih =>
      simp only [dictContains, List.any_cons, Bool.or_eq_false_iff] at h
      rw [List.cons_append, dictDel, if_neg (by simpa using h.1),
        ih (by simpa [dictContains] using h.2)]

/-- An appended element is contained. -/
theorem contains_append_self (l : List Item) (item : Item) :
    (l ++ [item]).contains item = true := by
  simp

/-- C7 (amended): equipping an item into a slot that was EMPTY and then
unequipping that slot restores the base attack and defense (indeed all
base stats) to their pre-equip values, returns the item to the
inventory, and leaves the equipped mapping as it was.  (When the slot
was occupied, the displaced item's deltas are subtracted at equip time
and never restored — see the counterexample.) -/
theorem claim_C7_amended (c : Character) (item : Item) (slot? : Option String)
    (hmem : c.inventory.contains item = true)
    (hslot : dictContains c.equipped (resolve_slot item slot?) = false) :
    ((c.equip_item item slot?).unequip_item
        (resolve_slot item slot?)).attack = c.attack
    ∧ ((c.equip_item item slot?).unequip_item
        (resolve_slot item slot?)).defense = c.defense
    ∧ ((c.equip_item item slot?).unequip_item
        (resolve_slot item slot?)).equipped = c.equipped
    ∧ ((c.equip_item item slot?).unequip_item
        (resolve_slot item slot?)).inventory.contains item = true := by
  have hequip : c.equip_item item slot?
      = Character.apply_item_stats
          { c with
            equipped := dictSet c.equipped (resolve_slot item slot?) item,
            inventory := removeFirstItem c.inventory item } item := by
    rw [Character.equip_item, if_pos hmem]
    dsimp only
    rw [hslot, if_neg (by simp)]
  have happly := apply_item_stats_spec
    { c with
      equipped := dictSet c.equipped (resolve_slot item slot?) item,
      inventory := removeFirstItem c.inventory item } item
  have hget : dictGet (c.equip_item item slot?).equipped
      (resolve_slot item slot?) = some item := by
    rw [hequip, happly]
    exact dictGet_dictSet_self c.equipped (resolve_slot item slot?) item
  have hdel : dictDel (c.equip_item item slot?).equipped
      (resolve_slot item slot?) = c.equipped := by
    rw [hequip, happly]
    show dictDel (dictSet c.equipped (resolve_slot item slot?) item)
      (resolve_slot item slot?) = c.equipped
    rw [dictSet_of_not_contains _ _ _ hslot,
      dictDel_append_of_not_contains _ _ _ hslot]
  have hune : (c.equip_item item slot?).unequip_item (resolve_slot item slot?)
      = Character.remove_item_stats
          { (c.equip_item item slot?) with
            equipped := dictDel (c.equip_item item slot?).equipped
              (resolve_slot item slot?),
            inventory := (c.equip_item item slot?).inventory ++ [item] } item := by
    rw [Character.unequip_item, hget]
  rw [hune, remove_item_stats_spec]
  dsimp only
  rw [hdel, hequip, happly]
  dsimp only
  refine ⟨?_, ?_, rfl, contains_append_self _ item⟩ <;>
    rw [sumForKey_neg] <;> ring

/-- Counterexample to C7 as stated: when the target slot is already
occupied, equip-then-unequip does NOT restore the base attack — the
displaced item's +5 is lost (15 becomes 10). -/
theorem claim_C7_counterexample :
    ((charC7.equip_item itemNewC7 none).unequip_item "weapon").attack
      ≠ charC7.attack := by
  decide

/-- Witness for the amended C7 at a concrete input: with the weapon slot
empty, equip then unequip of `itemNewC7` restores attack and defense,
returns the item to the inventory and empties the slot. -/
theorem claim_C7_witness :
    ((charC7b.equip_item itemNewC7 none).unequip_item
        (resolve_slot itemNewC7 none)).attack = charC7b.attack
    ∧ ((charC7b.equip_item itemNewC7 none).unequip_item
        (resolve_slot itemNewC7 none)).defense = charC7b.defense
    ∧ ((charC7b.equip_item itemNewC7 none).unequip_item
        (resolve_slot itemNewC7 none)).equipped = charC7b.equipped
    ∧ ((charC7b.equip_item itemNewC7 none).unequip_item
        (resolve_slot itemNewC7 none)).inventory.contains itemNewC7 = true :=
  claim_C7_amended charC7b itemNewC7 none (by decide) (by decide)

/-- Elements of `dictDel` come from the original dict. -/
theorem dictDel_mem (d : List (String × Item)) (k : String)
    (q : String × Item) (h : q ∈ dictDel d k) : q ∈ d := by
  induction d with
  | nil => simpa [dictDel] using h
  | cons p rest ih =>
      rw [dictDel] at h
      by_cases hp : p.1 = k
      · rw [if_pos hp] at h
        exact List.mem_cons_of_mem _ h
      · rw [if_neg hp] at h
        rcases List.mem_cons.mp h with h | h
        · exact h ▸ List.mem_cons_self _ _
        · exact List.mem_cons_of_mem _ (ih h)

/-- Elements of `dictSet` come from the original dict or are the new
binding. -/
theorem dictSet_mem (d : List (String × Item)) (k : String) (v : Item)
    (q : String × Item) (h : q ∈ dictSet d k v) : q ∈ d ∨ q = (k, v) := by
  induction d with
  | nil => exact Or.inr (List.mem_singleton.mp (by simpa [dictSet] using h))
  | cons p rest ih =>
      rw [dictSet] at h
      by_cases hp : p.1 = k
      · rw [if_pos hp] at h
        rcases List.mem_cons.mp h with h | h
        · exact Or.inr h
        · exact Or.inl (List.mem_cons_of_mem _ h)
      · rw [if_neg hp] at h
        rcases List.mem_cons.mp h with h | h
        · exact Or.inl (h ▸ List.mem_cons_self _ _)
        · rcases ih h with h | h
          · exact Or.inl (List.mem_cons_of_mem _ h)
          · exact Or.inr h

/-- A successful `dictGet` read is a binding of the dict. -/
theorem dictGet_mem (d : List (String × Item)) (k : String) (it : Item)
    (h : dictGet d k = some it) : (k, it) ∈ d := by
  rw [dictGet] at h
  rcases hf : d.find? (fun p => p.1 = k) with _ | pr
  · rw [hf] at h
    exact absurd h (by simp)
  · rw [hf] at h
    have hpr : pr.1 = k := by simpa using List.find?_some hf
    have hmem : pr ∈ d := List.mem_of_find?_eq_some hf
    have : (k, it) = pr := by
      obtain ⟨a, b⟩ := pr
      simp only [Option.some.injEq] at h
      simp only at hpr
      rw [hpr, h]
    exact this ▸ hmem

/-- Elements of `removeFirstOfType` come from the original list. -/
theorem removeFirstOfType_mem (l : List StatusEffect) (t : StatusEffectType)
    (e : StatusEffect) (h : e ∈ removeFirstOfType l t) : e ∈ l := by
  induction l with
  | nil => simpa [removeFirstOfType] using h
  | cons x rest ih =>
      rw [removeFirstOfType] at h
      by_cases hx : x.effect_type = t
      · rw [if_pos hx] at h
        exact List.mem_cons_of_mem _ h
      · rw [if_neg hx] at h
        rcases List.mem_cons.mp h with h | h
        · exact h ▸ List.mem_cons_self _ _
        · exact List.mem_cons_of_mem _ (ih h)

/-- A key bound on no pair contributes a zero sum. -/
theorem sumForKey_of_not_mem (g : Int → Int) (key : String)
    (l : List (String × Int)) (h : ∀ q ∈ l, ¬ q.1 = key) :
    sumForKey g key l = 0 := by
  induction l with
  | nil => simp [sumForKey]
  | cons q rest ih =>
      rw [sumForKey_cons, if_neg (h q (List.mem_cons_self _ _)), ih
        (fun x hx => h x (List.mem_cons_of_mem _ hx))]
      ring

/-- Attack/defense-only stats contribute nothing to the hp/mana keys. -/
theorem statsAD_key_sums (item : Item) (hAD : statsOnlyAttackDefense item)
    (g : Int → Int) :
    sumForKey g "max_hp" item.stats = 0 ∧ sumForKey g "hp" item.stats = 0
    ∧ sumForKey g "max_mana" item.stats = 0
    ∧ sumForKey g "mana" item.stats = 0 := by
  refine ⟨?_, ?_, ?_, ?_⟩ <;>
    refine sumForKey_of_not_mem g _ item.stats (fun q hq => ?_) <;>
    rcases hAD q hq with h | h <;> rw [h] <;> decide

/-- `take_damage` keeps hp within range (and touches nothing else). -/
theorem Inv_take_damage (c : Character) (amount : Int) (h : Inv c) :
    Inv (c.take_damage amount).2 := by
  obtain ⟨⟨h1, h2, h3, h4⟩, hAD, hwf⟩ := h
  have ha : 1 ≤ max 1 (amount - c.get_total_defense) := le_max_left _ _
  simp only [Character.take_damage]
  refine ⟨⟨le_max_left _ _, max_le (by linarith) (by linarith), h3, h4⟩,
    hAD, hwf⟩

/-- `heal` with a nonnegative amount keeps hp within range. -/
theorem Inv_heal (c : Character) (amount : Int) (h0 : 0 ≤ amount)
    (h : Inv c) : Inv (c.heal amount) := by
  obtain ⟨⟨h1, h2, h3, h4⟩, hAD, hwf⟩ := h
  exact ⟨⟨le_min (by linarith) (by linarith), min_le_left _ _, h3, h4⟩,
    hAD, hwf⟩

/-- `restore_mana` with a nonnegative amount keeps mana within range. -/
theorem Inv_restore_mana (c : Character) (amount : Int) (h0 : 0 ≤ amount)
    (h : Inv c) : Inv (c.restore_mana amount) := by
  obtain ⟨⟨h1, h2, h3, h4⟩, hAD, hwf⟩ := h
  exact ⟨⟨h1, h2, le_min (by linarith) (by linarith), min_le_left _ _⟩,
    hAD, hwf⟩

/-- `add_status_effect` with a well-formed effect preserves the
invariant. -/
theorem Inv_add_status_effect (c : Character) (e : StatusEffect)
    (hwfe : wfEffect e) (h : Inv c) : Inv (c.add_status_effect e) := by
  obtain ⟨hc, hAD, hwf⟩ := h
  refine ⟨hc, hAD, fun x hx => ?_⟩
  rcases List.mem_append.mp hx with hx | hx
  · exact hwf x (removeFirstOfType_mem _ _ _ hx)
  · rw [List.mem_singleton.mp hx]
    exact hwfe

/-- `unequip_item` preserves the invariant (the removed item's stats are
attack/defense-only by the invariant, so hp/mana are untouched). -/
theorem Inv_unequip_item (c : Character) (slot : String) (h : Inv c) :
    Inv (c.unequip_item slot) := by
  obtain ⟨⟨h1, h2, h3, h4⟩, hAD, hwf⟩ := h
  rw [Character.unequip_item]
  cases hg : dictGet c.equipped slot with
  | none => exact ⟨⟨h1, h2, h3, h4⟩, hAD, hwf⟩
  | some it =>
      have hADit : statsOnlyAttackDefense it :=
        hAD (slot, it) (dictGet_mem _ _ _ hg)
      obtain ⟨z1, z2, z3, z4⟩ := statsAD_key_sums it hADit (fun v => -v)
      dsimp only
      rw [remove_item_stats_spec]
      simp only [z1, z2, z3, z4, add_zero]
      exact ⟨⟨h1, h2, h3, h4⟩, fun q hq => hAD q (dictDel_mem _ _ _ hq), hwf⟩

/-- Moving an attack/defense-only item from inventory into a slot and
applying its stats preserves the invariant. -/
theorem Inv_equip_aux (c1 : Character) (item : Item) (s : String)
    (hADitem : statsOnlyAttackDefense item) (h : Inv c1) :
    Inv (Character.apply_item_stats
      { c1 with equipped := dictSet c1.equipped s item,
                inventory := removeFirstItem c1.inventory item } item) := by
  obtain ⟨⟨h1, h2, h3, h4⟩, hAD, hwf⟩ := h
  obtain ⟨z1, z2, z3, z4⟩ := statsAD_key_sums item hADitem (fun v => v)
  rw [apply_item_stats_spec]
  simp only [z1, z2, z3, z4, add_zero]
  refine ⟨⟨h1, h2, h3, h4⟩, fun q hq => ?_, hwf⟩
  rcases dictSet_mem _ _ _ _ hq with hq | hq
  · exact hAD q hq
  · rw [hq]
    exact hADitem

/-- `equip_item` with an attack/defense-only item preserves the
invariant. -/
theorem Inv_equip_item (c : Character) (item : Item) (slot? : Option String)
    (hADitem : statsOnlyAttackDefense item) (h : Inv c) :
    Inv (c.equip_item item slot?) := by
  rw [Character.equip_item]
  by_cases hco : c.inventory.contains item = true
  · rw [if_pos hco]
    dsimp only
    split
    · exact Inv_equip_aux _ _ _ hADitem (Inv_unequip_item _ _ h)
    · exact Inv_equip_aux _ _ _ hADitem h
  · rw [if_neg hco]
    exact h

/-- One `apply_effect` call on a well-formed effect keeps hp and mana in
range. -/
theorem apply_effect_invCore (e : StatusEffect) (c : Character)
    (hwfe : wfEffect e) (h : InvCore c) : InvCore (e.apply_effect c).2.1 := by
  obtain ⟨h1, h2, h3, h4⟩ := h
  rw [StatusEffect.apply_effect]
  by_cases hd : e.remaining_duration ≤ 0
  · rw [if_pos hd]
    exact ⟨h1, h2, h3, h4⟩
  · rw [if_neg hd]
    cases he : e.effect_type with
    | POISON =>
        dsimp only [Character.take_damage]
        have ha : 1 ≤ max 1 (e.power - c.get_total_defense) := le_max_left _ _
        exact ⟨le_max_left _ _, max_le (by linarith) (by linarith), h3, h4⟩
    | BURN =>
        dsimp only [Character.take_damage]
        have ha : 1 ≤ max 1 (e.power - c.get_total_defense) := le_max_left _ _
        exact ⟨le_max_left _ _, max_le (by linarith) (by linarith), h3, h4⟩
    | REGENERATION =>
        dsimp only [Character.heal]
        have hp0 : 0 ≤ e.power := hwfe he
        exact ⟨le_min (by linarith) (by linarith), min_le_left _ _, h3, h4⟩
    | FREEZE => exact ⟨h1, h2, h3, h4⟩
    | STUN => exact ⟨h1, h2, h3, h4⟩
    | STRENGTH_BOOST => exact ⟨h1, h2, h3, h4⟩
    | DEFENSE_BOOST => exact ⟨h1, h2, h3, h4⟩
    | SPEED_BOOST => exact ⟨h1, h2, h3, h4⟩
    | WEAKNESS => exact ⟨h1, h2, h3, h4⟩
    | VULNERABILITY => exact ⟨h1, h2, h3, h4⟩

/-- The status-effect pass keeps hp and mana in range when every pending
effect is well-formed. -/
theorem processGo_invCore (todo done : List StatusEffect) (c : Character)
    (hwf : ∀ e ∈ todo, wfEffect e) (h : InvCore c) :
    InvCore (processGo c done todo).1 := by
  induction todo generalizing done c with
  | nil => exact h
  | cons e rest ih =>
      rw [processGo]
      rcases hx : e.apply_effect { c with status_effects := done ++ e :: rest }
        with ⟨e', c', msg⟩
      have hc' : InvCore c' := by
        have hh := apply_effect_invCore e
          { c with status_effects := done ++ e :: rest }
          (hwf e (List.mem_cons_self _ _)) h
        rw [hx] at hh
        exact hh
      have hrest := ih (done ++ [e']) c'
        (fun x hx' => hwf x (List.mem_cons_of_mem _ hx')) hc'
      dsimp only
      rcases hy : processGo c' (done ++ [e']) rest with ⟨c'', done', msgs⟩
      rw [hy] at hrest
      dsimp only at hrest
      exact hrest

/-- `tickEffect` preserves effect well-formedness. -/
theorem wfEffect_tick (e : StatusEffect) (h : wfEffect e) :
    wfEffect (tickEffect e) := by
  rw [tickEffect]
  split
  · exact h
  · exact h

/-- `process_status_effects` preserves the invariant. -/
theorem Inv_process (c : Character) (h : Inv c) :
    Inv c.process_status_effects.1 := by
  obtain ⟨hc, hAD, hwf⟩ := h
  have hspec := processGo_spec c.status_effects [] c
  have hcore := processGo_invCore c.status_effects [] c hwf hc
  rcases hx : processGo c [] c.status_effects with ⟨c1, effs, msgs⟩
  rw [hx] at hspec hcore
  obtain ⟨hd, -, -, -, -, -, heqq, -, -⟩ := hspec
  dsimp only at hd heqq hcore
  rw [List.nil_append] at hd
  simp only [Character.process_status_effects, hx]
  refine ⟨hcore, ?_, ?_⟩
  · intro q hq
    rw [heqq] at hq
    exact hAD q hq
  · intro x hx'
    dsimp only at hx'
    have hx'' : x ∈ effs := List.mem_of_mem_filter hx'
    rw [hd] at hx''
    obtain ⟨a, ha, rfl⟩ := List.mem_map.mp hx''
    exact wfEffect_tick a (hwf a ha)

/-- `Ability.use` in the caster role with no target preserves the
invariant for a well-formed ability. -/
theorem Inv_use (ab : Ability) (c : Character) (r : Int)
    (hwfab : wfAbility ab r) (h : Inv c) : Inv (ab.use c none r).2.1 := by
  obtain ⟨hcost, hheal, hse⟩ := hwfab
  by_cases hcu : ab.can_use c = true
  · rw [Ability.use, if_neg (by simp [hcu])]
    have hprops : ab.current_cooldown = 0 ∧ c.mana ≥ ab.mana_cost
        ∧ ¬ c.is_action_prevented = true := by
      simpa [Ability.can_use] using hcu
    obtain ⟨-, hm, -⟩ := hprops
    obtain ⟨⟨h1, h2, h3, h4⟩, hAD, hwfe⟩ := h
    have hc1 : Inv { c with mana := c.mana - ab.mana_cost } := by
      refine ⟨⟨h1, h2, ?_, ?_⟩, hAD, hwfe⟩ <;> dsimp only <;> linarith
    cases ht : ab.ability_type with
    | ATTACK => exact hc1
    | HEAL =>
        have hc2 : Inv (Character.heal { c with mana := c.mana - ab.mana_cost }
            (ab.power + r)) := Inv_heal _ _ (hheal ht) hc1
        cases hs : ab.status_effect with
        | none => exact hc2
        | some se =>
            have hwfse : wfEffect se := by
              rw [hs] at hse
              exact hse
            exact Inv_add_status_effect _ _ hwfse hc2
    | BUFF =>
        cases hs : ab.status_effect with
        | none => exact hc1
        | some se =>
            have hwfse : wfEffect se := by
              rw [hs] at hse
              exact hse
            exact Inv_add_status_effect _ _ hwfse hc1
    | DEBUFF => exact hc1
  · rw [Ability.use, if_pos (by simpa using hcu)]
    split
    · exact h
    · exact h

/-- Every single well-formed operation preserves the invariant. -/
theorem applyOp_inv (p : Player) (op : Op) (hwf : wfOp op)
    (h : Inv p.toCharacter) : Inv (applyOp p op).toCharacter := by
  cases op with
  | takeDamage amount => exact Inv_take_damage _ amount h
  | heal amount => exact Inv_heal _ amount hwf h
  | restoreMana amount => exact Inv_restore_mana _ amount hwf h
  | equipItem item slot? => exact Inv_equip_item _ item slot? hwf h
  | unequipItem slot => exact Inv_unequip_item _ slot h
  | addStatusEffect e => exact Inv_add_status_effect _ e hwf h
  | processStatusEffects => exact Inv_process _ h
  | useAbility ab r => exact Inv_use ab _ r hwf h
  | levelUp inc =>
      obtain ⟨⟨ha1, ha2⟩, ⟨hb1, hb2⟩, -, -⟩ := hwf
      obtain ⟨⟨h1, h2, h3, h4⟩, hAD, hwfe⟩ := h
      refine ⟨⟨?_, ?_, ?_, ?_⟩, hAD, hwfe⟩ <;>
        dsimp only [applyOp, Player.level_up] <;> linarith
  | allocateStatPoint stat =>
      obtain ⟨⟨h1, h2, h3, h4⟩, hAD, hwfe⟩ := h
      dsimp only [applyOp, Player.allocate_stat_point]
      split_ifs <;>
        exact ⟨⟨by dsimp only <;> linarith, by dsimp only <;> linarith,
          by dsimp only <;> linarith, by dsimp only <;> linarith⟩, hAD, hwfe⟩

/-- The invariant is preserved along any well-formed operation
sequence. -/
theorem foldl_applyOp_inv (ops : List Op) (p : Player)
    (hwf : ∀ op ∈ ops, wfOp op) (h : Inv p.toCharacter) :
    Inv ((ops.foldl applyOp p).toCharacter) := by
  induction ops generalizing p with
  | nil => exact h
  | cons op rest ih =>
      rw [List.foldl_cons]
      exact ih (applyOp p op) (fun x hx => hwf x (List.mem_cons_of_mem _ hx))
        (applyOp_inv p op (hwf op (List.mem_cons_self _ _)) h)

/-- C1 (amended): starting from a character constructed with nonnegative
hp and mana, `0 ≤ hp ≤ max_hp` and `0 ≤ mana ≤ max_mana` hold after
every sequence of the public operations, PROVIDED the sequence is
well-formed: heal/restore amounts are nonnegative, equipped items touch
only attack/defense, added status effects have nonnegative regeneration
power, abilities have nonnegative mana cost and nonnegative drawn heal
amounts, and level-up increases lie in their `randint` ranges (`wfOp`).
Since `ops` is arbitrary, the bounds hold after each prefix, i.e. after
each operation.  (Unconditionally the claim is false — see the
counterexample.) -/
theorem claim_C1_amended (nm : String) (hp0 mana0 atk0 def0 : Int)
    (hhp : 0 ≤ hp0) (hmana : 0 ≤ mana0) (ops : List Op)
    (hwf : ∀ op ∈ ops, wfOp op) :
    0 ≤ (ops.foldl applyOp (Player.make nm hp0 mana0 atk0 def0)).hp
    ∧ (ops.foldl applyOp (Player.make nm hp0 mana0 atk0 def0)).hp
        ≤ (ops.foldl applyOp (Player.make nm hp0 mana0 atk0 def0)).max_hp
    ∧ 0 ≤ (ops.foldl applyOp (Player.make nm hp0 mana0 atk0 def0)).mana
    ∧ (ops.foldl applyOp (Player.make nm hp0 mana0 atk0 def0)).mana
        ≤ (ops.foldl applyOp (Player.make nm hp0 mana0 atk0 def0)).max_mana := by
  have h0 : Inv (Player.make nm hp0 mana0 atk0 def0).toCharacter := by
    refine ⟨⟨hhp, le_refl _, hmana, le_refl _⟩, ?_, ?_⟩ <;>
      simp [Player.make, Character.make]
  obtain ⟨⟨h1, h2, h3, h4⟩, -, -⟩ :=
    foldl_applyOp_inv ops (Player.make nm hp0 mana0 atk0 def0) hwf h0
  exact ⟨h1, h2, h3, h4⟩

/-- Counterexample to C1 as stated: `heal` with a negative amount (the
code has no lower floor) drives hp below 0 — a character constructed
with `hp = 1` that heals `-2` ends at `hp = -1`. -/
theorem claim_C1_counterexample :
    ¬ (0 ≤ ([Op.heal (-2)].foldl applyOp (Player.make "c" 1 50 10 5)).hp) := by
  decide

/-- Witness for the amended C1 at a concrete input: a sample sequence
with one of every operation kind keeps hp and mana in range. -/
theorem claim_C1_witness :
    0 ≤ (opsW.foldl applyOp (Player.make "Wit" 100 50 10 5)).hp
    ∧ (opsW.foldl applyOp (Player.make "Wit" 100 50 10 5)).hp
        ≤ (opsW.foldl applyOp (Player.make "Wit" 100 50 10 5)).max_hp
    ∧ 0 ≤ (opsW.foldl applyOp (Player.make "Wit" 100 50 10 5)).mana
    ∧ (opsW.foldl applyOp (Player.make "Wit" 100 50 10 5)).mana
        ≤ (opsW.foldl applyOp (Player.make "Wit" 100 50 10 5)).max_mana :=
  claim_C1_amended "Wit" 100 50 10 5 (by decide) (by decide) opsW (by decide)

end RPG
